import Mathlib

/-!
Verification of the object attribute and delegation model of the notes
repository.  The repository's JavaScript files demonstrate property
descriptors, prototype (delegation) chains, extensibility locks
(`Object.seal` / `Object.freeze`), the `mixin` composer and the scope-safe
`Parent` constructor.  The engine primitives (`define`, `get`, `set`,
`seal`, `freeze`, `remove`) are the host language's built-ins, which the
source files call but do not implement; they are modelled here from the
specification.  `mixin` and the instantiation guard are translated from
the source files.
-/

namespace Obj

/-- Attribute values. -/
inductive Value where
  | undef
  | nullV
  | boolV (b : Bool)
  | num (n : Int)
  | str (s : String)
deriving DecidableEq, Repr

/-- Deeply embedded getter bodies: a getter either reads a stored field of
the host (`this`) through its delegation chain, or returns a constant. -/
inductive GetterCode where
  | readField (fld : String)
  | constVal (v : Value)
deriving DecidableEq, Repr

/-- Deeply embedded setter bodies: a setter either writes a stored field on
the host (`this`) or ignores the value (the source's logging-only setter). -/
inductive SetterCode where
  | writeField (fld : String)
  | noop
deriving DecidableEq, Repr

/-- Attribute descriptor: either stored (data) or computed (accessor), each
carrying `enumerable` and `configurable` flags. -/
inductive Descriptor where
  | stored (value : Value) (writable enumerable configurable : Bool)
  | computed (getter : Option GetterCode) (setter : Option SetterCode)
      (enumerable configurable : Bool)
deriving DecidableEq, Repr

def Descriptor.configurableB : Descriptor → Bool
  | .stored _ _ _ c => c
  | .computed _ _ _ c => c

def Descriptor.enumerableB : Descriptor → Bool
  | .stored _ _ e _ => e
  | .computed _ _ e _ => e

/-- The three-level extensibility lock. -/
inductive Extensibility where
  | extensible
  | sealedExt
  | frozen
deriving DecidableEq, Repr

/-- An object record: an ordered association list of descriptors, an
optional delegate (an arena index) and the extensibility state. -/
structure ObjectRecord where
  attrs : List (String × Descriptor)
  delegate : Option Nat
  ext : Extensibility
deriving DecidableEq, Repr

/-- The arena of records; delegates are indices into it. -/
abbrev Heap := List ObjectRecord

/-- Error kinds of the engine. -/
inductive EngineError where
  | definitionError
  | notExtensible
  | notConfigurable
  | sealedErr
  | notWritable
  | notReadable
  | cyclicDelegation
deriving DecidableEq, Repr

/-- First-match lookup in an ordered descriptor list. -/
def lookupAttr : List (String × Descriptor) → String → Option Descriptor
  | [], _ => none
  | (n, d) :: rest, name => if n = name then some d else lookupAttr rest name

/-- Insert-or-replace in an ordered descriptor list, preserving declaration
order and appending at the end when the name is new. -/
def setAttr : List (String × Descriptor) → String → Descriptor →
    List (String × Descriptor)
  | [], name, d => [(name, d)]
  | (n, d0) :: rest, name, d =>
      if n = name then (n, d) :: rest else (n, d0) :: setAttr rest name d

/-- Delete a name from an ordered descriptor list. -/
def removeAttr : List (String × Descriptor) → String →
    List (String × Descriptor)
  | [], _ => []
  | (n, d0) :: rest, name =>
      if n = name then rest else (n, d0) :: removeAttr rest name

/-- `hasOwn`: the name is present directly on the record (no traversal). -/
def hasOwn (h : Heap) (i : Nat) (name : String) : Bool :=
  match h[i]? with
  | none => false
  | some R => (lookupAttr R.attrs name).isSome

/-- Own attribute names, in declaration order, optionally filtered to the
enumerable ones (`Object.keys` uses the enumerable filter). -/
def ownKeys (R : ObjectRecord) (enumerableOnly : Bool) : List String :=
  (if enumerableOnly then R.attrs.filter (fun p => p.2.enumerableB)
   else R.attrs).map Prod.fst

/-- The permitted one-way narrowing on a non-configurable stored
descriptor: only `writable` changes, and only from `true` to `false`. -/
def writableTightening (old dnew : Descriptor) : Bool :=
  match old, dnew with
  | .stored v true e c, .stored v' false e' c' =>
      decide (v = v') && (e == e') && (c == c')
  | _, _ => false

/-- Modelled from the spec: `define(name, descriptor)` (§4.2) — the
host-language `Object.defineProperty`, absent from the source files.
Fails with `notExtensible` when adding to a non-extensible record, with
`notConfigurable` when redefining a non-configurable descriptor with
anything but an identical descriptor or the one-way `writable`
tightening. -/
def define (h : Heap) (i : Nat) (name : String) (d : Descriptor) :
    Except EngineError Heap :=
  match h[i]? with
  | none => .error .definitionError
  | some R =>
    match lookupAttr R.attrs name with
    | some old =>
        if old.configurableB then
          .ok (List.set h i { R with attrs := setAttr R.attrs name d })
        else if d = old then
          .ok (List.set h i { R with attrs := setAttr R.attrs name d })
        else if writableTightening old d then
          .ok (List.set h i { R with attrs := setAttr R.attrs name d })
        else .error .notConfigurable
    | none =>
        if R.ext = .extensible then
          .ok (List.set h i { R with attrs := R.attrs ++ [(name, d)] })
        else .error .notExtensible

/-- Modelled from the spec: `remove(name)` (§4.2) — the host-language
`delete`.  The non-configurability check precedes the seal check, matching
the spec's order of failure conditions. -/
def remove (h : Heap) (i : Nat) (name : String) : Except EngineError Heap :=
  match h[i]? with
  | none => .error .definitionError
  | some R =>
    match lookupAttr R.attrs name with
    | none => .ok h
    | some old =>
        if old.configurableB = false then .error .notConfigurable
        else if R.ext = .extensible then
          .ok (List.set h i { R with attrs := removeAttr R.attrs name })
        else .error .sealedErr

/-- Modelled from the spec: bounded delegation-chain search for the first
record owning `name` (§4.4, §7).  `fuel` is the configurable traversal
depth bound; exhausting it reports a cycle. -/
def findOwner (h : Heap) : Nat → Nat → String → Except EngineError (Option Nat)
  | 0, _, _ => .error .cyclicDelegation
  | fuel + 1, i, name =>
    match h[i]? with
    | none => .ok none
    | some R =>
        if (lookupAttr R.attrs name).isSome then .ok (some i)
        else
          match R.delegate with
          | none => .ok none
          | some j => findOwner h fuel j name

/-- Bounded chain read of a stored field, used to interpret getter/setter
bodies (the source's accessors only read stored fields of `this`). -/
def readStored (h : Heap) : Nat → Nat → String → Value
  | 0, _, _ => .undef
  | fuel + 1, i, name =>
    match h[i]? with
    | none => .undef
    | some R =>
        match lookupAttr R.attrs name with
        | some (.stored v _ _ _) => v
        | some (.computed _ _ _ _) => .undef
        | none =>
            match R.delegate with
            | none => .undef
            | some j => readStored h fuel j name

/-- Run a getter body with `host` bound as host context. -/
def runGetter (h : Heap) (fuel : Nat) (host : Nat) : GetterCode → Value
  | .readField fld => readStored h fuel host fld
  | .constVal v => v

/-- Run a setter body with `host` bound as host context.  The internal
assignment follows the host language's non-strict behaviour: a blocked
write inside the setter is silently dropped. -/
def runSetter (h : Heap) (host : Nat) (v : Value) : SetterCode → Heap
  | .noop => h
  | .writeField fld =>
    match h[host]? with
    | none => h
    | some R =>
        match lookupAttr R.attrs fld with
        | some (.stored _ w e c) =>
            if w then
              List.set h host
                { R with attrs := setAttr R.attrs fld (.stored v w e c) }
            else h
        | some (.computed _ _ _ _) => h
        | none =>
            if R.ext = .extensible then
              List.set h host
                { R with attrs := R.attrs ++ [(fld, .stored v false false false)] }
            else h

/-- Modelled from the spec: `get(R, name)` (§4.4).  Resolves through the
chain; a stored descriptor yields its value, a computed one invokes its
getter with the original receiver bound as host context; `.ok none` is
the explicit "absent" marker. -/
def get (h : Heap) (fuel : Nat) (r : Nat) (name : String) :
    Except EngineError (Option Value) :=
  match findOwner h fuel r name with
  | .error e => .error e
  | .ok none => .ok none
  | .ok (some d) =>
    match h[d]? with
    | none => .ok none
    | some D =>
        match lookupAttr D.attrs name with
        | none => .ok none
        | some (.stored v _ _ _) => .ok (some v)
        | some (.computed g _ _ _) =>
            match g with
            | some code => .ok (some (runGetter h fuel r code))
            | none => .error .notReadable

/-- The shadowing write step of `set`: create or update the attribute
directly on the receiver, never on a delegate; creation uses the default
shorthand flags and respects the receiver's extensibility. -/
def shadowWrite (h : Heap) (r : Nat) (name : String) (v : Value) :
    Except EngineError Heap :=
  match h[r]? with
  | none => .error .notExtensible
  | some R =>
    match lookupAttr R.attrs name with
    | some (.stored _ w e c) =>
        if w then
          .ok (List.set h r
            { R with attrs := setAttr R.attrs name (.stored v w e c) })
        else .error .notWritable
    | some (.computed _ _ _ _) => .error .notWritable
    | none =>
        if R.ext = .extensible then
          .ok (List.set h r
            { R with attrs := R.attrs ++ [(name, .stored v false false false)] })
        else .error .notExtensible

/-- Modelled from the spec: `set(R, name, value)` (§4.4), in the default
strict mode.  A computed owner's setter is invoked with the receiver as
host; a non-writable stored owner fails; otherwise the write shadows onto
the receiver. -/
def set (h : Heap) (fuel : Nat) (r : Nat) (name : String) (v : Value) :
    Except EngineError Heap :=
  match findOwner h fuel r name with
  | .error e => .error e
  | .ok none => shadowWrite h r name v
  | .ok (some d) =>
    match h[d]? with
    | none => .error .definitionError
    | some D =>
        match lookupAttr D.attrs name with
        | none => .error .definitionError
        | some (.computed _ s _ _) =>
            match s with
            | some code => .ok (runSetter h r v code)
            | none => .error .notWritable
        | some (.stored _ w _ _) =>
            if w then shadowWrite h r name v else .error .notWritable

/-- The heap after a `set`, unchanged when the `set` fails. -/
def applySet (h : Heap) (fuel : Nat) (r : Nat) (name : String) (v : Value) :
    Heap :=
  match set h fuel r name v with
  | .ok h' => h'
  | .error _ => h

/-- Seal a descriptor: `configurable := false`. -/
def sealDesc : Descriptor → Descriptor
  | .stored v w e _ => .stored v w e false
  | .computed g s e _ => .computed g s e false

/-- Freeze a descriptor: `configurable := false`, and `writable := false`
on stored descriptors. -/
def freezeDesc : Descriptor → Descriptor
  | .stored v _ e _ => .stored v false e false
  | .computed g s e _ => .computed g s e false

def sealRec (R : ObjectRecord) : ObjectRecord :=
  { R with
    ext := if R.ext = .frozen then .frozen else .sealedExt,
    attrs := R.attrs.map (fun p => (p.1, sealDesc p.2)) }

def freezeRec (R : ObjectRecord) : ObjectRecord :=
  { R with
    ext := .frozen,
    attrs := R.attrs.map (fun p => (p.1, freezeDesc p.2)) }

/-- Modelled from the spec: `seal(R)` (§4.3) — the host `Object.seal`.
Only the record's own descriptors are touched. -/
def sealObj (h : Heap) (i : Nat) : Heap :=
  match h[i]? with
  | none => h
  | some R => List.set h i (sealRec R)

/-- Modelled from the spec: `freeze(R)` (§4.3) — the host `Object.freeze`.
Only the record's own descriptors are touched. -/
def freeze (h : Heap) (i : Nat) : Heap :=
  match h[i]? with
  | none => h
  | some R => List.set h i (freezeRec R)

/-- One step of the source `mixin` loop: read the supplier's current
descriptor for `name` and define it on the receiver. -/
def copyOwn (h : Heap) (recv supp : Nat) (name : String) :
    Except EngineError Heap :=
  match h[supp]? with
  | none => .ok h
  | some S =>
    match lookupAttr S.attrs name with
    | none => .ok h
    | some d => define h recv name d

/-- Translated from the source `mixin` (part_003): iterate the supplier's
enumerable own keys and copy each whole descriptor onto the receiver via
`define`; an error from any `define` propagates and aborts the loop. -/
def mixin (h : Heap) (recv supp : Nat) : Except EngineError Heap :=
  match h[supp]? with
  | none => .ok h
  | some S => (ownKeys S true).foldlM (fun hh name => copyOwn hh recv supp name) h

/-- Own-descriptor lookup through the heap. -/
def ownLookup (h : Heap) (i : Nat) (name : String) : Option Descriptor :=
  match h[i]? with
  | none => none
  | some R => lookupAttr R.attrs name

/-- Does the first owner of `name` on the chain hold a computed
descriptor?  (`set` then runs a setter instead of a shadowing write.) -/
def ownerComputed (h : Heap) (fuel r : Nat) (name : String) : Bool :=
  match findOwner h fuel r name with
  | .ok (some d) =>
    match h[d]? with
    | some D =>
        match lookupAttr D.attrs name with
        | some (.computed _ _ _ _) => true
        | _ => false
    | none => false
  | _ => false

/-! ### The instantiation guard (translated from the source `Parent`) -/

/-- The constructor body of the source `Parent`: assign `name` and
`child` on the host context via ordinary `set`. -/
def parentBody (h : Heap) (fuel host : Nat) (nm ch : Value) :
    Except EngineError Heap :=
  match set h fuel host "name" nm with
  | .error e => .error e
  | .ok h1 => set h1 fuel host "child" ch

/-- `instantiate` for the guarded constructor: allocate a fresh record
delegating to the constructor's prototype, run the body with the fresh
record as host context, and return it. -/
def instantiateParent (h : Heap) (fuel protoIdx : Nat) (nm ch : Value) :
    Except EngineError (Heap × Nat) :=
  match parentBody (h ++ [⟨[], some protoIdx, .extensible⟩]) fuel h.length nm ch with
  | .error e => .error e
  | .ok h2 => .ok (h2, h.length)

/-- Is `t` reachable along the delegate chain starting from `i`'s
delegate (the `instanceof` test of the source)? -/
def inChain (h : Heap) : Nat → Nat → Nat → Bool
  | 0, _, _ => false
  | fuel + 1, i, t =>
    match h[i]? with
    | none => false
    | some R =>
        match R.delegate with
        | none => false
        | some j => (j == t) || inChain h fuel j t

/-- The source `Parent`'s scope-safe entry point: if the invocation
context is an instance of the constructor (fresh context from
`instantiate`), run the body on it; otherwise re-route through
`instantiateParent`, leaving the ambient context untouched. -/
def safeInvokeParent (h : Heap) (fuel protoIdx ctx : Nat) (nm ch : Value) :
    Except EngineError (Heap × Nat) :=
  if inChain h fuel ctx protoIdx then
    match parentBody h fuel ctx nm ch with
    | .error e => .error e
    | .ok h2 => .ok (h2, ctx)
  else instantiateParent h fuel protoIdx nm ch

/-! ### Concrete heaps used by witnesses and counterexamples -/

/-- The end-to-end seal scenario's heap: one extensible record with a
stored `count = 0` attribute, all flags `true`. -/
def hC8 : Heap :=
  [⟨[("count", .stored (.num 0) true true true)], none, .extensible⟩]

/-- Heap for the mixin failure analysis: the receiver (index 0) is sealed
and owns nothing; the supplier (index 1) owns two enumerable stored
attributes. -/
def hC6 : Heap :=
  [⟨[], none, .sealedExt⟩,
   ⟨[("a", .stored (.num 1) true true true),
     ("b", .stored (.num 2) true true true)], none, .extensible⟩]

/-- Heap for the C6 fail-fast witness with the failure at the second
enumerable key: the sealed receiver already owns a configurable `a`
(so the first per-name copy succeeds) but lacks `b`. -/
def hC6b : Heap :=
  [⟨[("a", .stored (.num 0) true true true)], none, .sealedExt⟩,
   ⟨[("a", .stored (.num 1) true true true),
     ("b", .stored (.num 2) true true true)], none, .extensible⟩]

/-- Heap for the C10 counterexample: the receiver (index 0) owns nothing
and delegates to index 1, whose attribute `a` is computed with a setter
that ignores the value (the source's logging-only setter). -/
def hC10 : Heap :=
  [⟨[], some 1, .extensible⟩,
   ⟨[("a", .computed none (some .noop) true true)], none, .extensible⟩]

/-- Heap for the C10 witness: the delegate's `a` is a writable stored
attribute, so the assignment shadows onto the receiver. -/
def hC10w : Heap :=
  [⟨[], some 1, .extensible⟩,
   ⟨[("a", .stored (.num 1) true true true)], none, .extensible⟩]

/-- The heap after the witness assignment. -/
def hC10wAfter : Heap :=
  [⟨[("a", .stored (.num 2) false false false)], some 1, .extensible⟩,
   ⟨[("a", .stored (.num 1) true true true)], none, .extensible⟩]

/-- Heap for the C1 witness: an empty extensible receiver delegating to a
record owning `a = 1` writable. -/
def hC1 : Heap :=
  [⟨[], some 1, .extensible⟩,
   ⟨[("a", .stored (.num 1) true true true)], none, .extensible⟩]

/-- Heap for the C2 witness: `x` is stored, writable, non-configurable. -/
def hC2 : Heap :=
  [⟨[("x", .stored (.num 3) true true false)], none, .extensible⟩]

/-- Heap for the C7 witness: two empty records delegating to each other. -/
def hC7 : Heap :=
  [⟨[], some 1, .extensible⟩, ⟨[], some 0, .extensible⟩]

/-- Heap for the C4 witness: a sealed, empty receiver delegating to an
empty extensible record. -/
def hC4 : Heap :=
  [⟨[], some 1, .sealedExt⟩, ⟨[], none, .extensible⟩]

/-- Heap for the C3 witness: one extensible record with a writable stored
`x` and a computed `g` whose getter reads `x` and whose setter writes
`x`. -/
def hC3 : Heap :=
  [⟨[("x", .stored (.num 5) true true true),
     ("g", .computed (some (.readField "x")) (some (.writeField "x")) true true)],
    none, .extensible⟩]

/-- Heap for the C5 witness: receiver (index 0) owns a stored `_color`;
supplier (index 1) owns an enumerable computed `color` reading
`this._color` and an enumerable stored `weight`. -/
def hC5 : Heap :=
  [⟨[("_color", .stored (.str "pink") true false true)], none, .extensible⟩,
   ⟨[("color", .computed (some (.readField "_color")) (some .noop) true true),
     ("weight", .stored (.str "heavy") true true true)], none, .extensible⟩]

/-! ### Basic lemmas about descriptor lists -/

lemma lookupAttr_setAttr_self (l : List (String × Descriptor)) (name : String)
    (d : Descriptor) : lookupAttr (setAttr l name d) name = some d := by
  induction l with
  | nil => simp [setAttr, lookupAttr]
  | cons p rest ih =>
      obtain ⟨n0, d0⟩ := p
      by_cases hn : n0 = name
      · subst hn; simp [setAttr, lookupAttr]
      · simp [setAttr, lookupAttr, hn, ih]

lemma lookupAttr_setAttr_ne (l : List (String × Descriptor)) (name n : String)
    (d : Descriptor) (h : n ≠ name) :
    lookupAttr (setAttr l name d) n = lookupAttr l n := by
  induction l with
  | nil => simp [setAttr, lookupAttr, Ne.symm h]
  | cons p rest ih =>
      obtain ⟨n0, d0⟩ := p
      by_cases hn : n0 = name
      · subst hn
        simp only [setAttr, if_pos rfl, lookupAttr, if_neg (Ne.symm h)]
      · simp only [setAttr, if_neg hn, lookupAttr]
        by_cases hn2 : n0 = n
        · simp [hn2]
        · simp [hn2, ih]

lemma lookupAttr_append_of_none {l1 : List (String × Descriptor)} {n : String}
    (l2 : List (String × Descriptor)) (h : lookupAttr l1 n = none) :
    lookupAttr (l1 ++ l2) n = lookupAttr l2 n := by
  induction l1 with
  | nil => simp
  | cons p rest ih =>
      obtain ⟨n0, d0⟩ := p
      simp only [lookupAttr] at h
      by_cases hn : n0 = n
      · simp [hn] at h
      · simp only [List.cons_append, lookupAttr, if_neg hn]
        exact ih (by simpa [hn] using h)

lemma lookupAttr_append_of_some {l1 : List (String × Descriptor)} {n : String}
    {d : Descriptor} (l2 : List (String × Descriptor))
    (h : lookupAttr l1 n = some d) :
    lookupAttr (l1 ++ l2) n = some d := by
  induction l1 with
  | nil => simp [lookupAttr] at h
  | cons p rest ih =>
      obtain ⟨n0, d0⟩ := p
      simp only [lookupAttr] at h
      by_cases hn : n0 = n
      · simp only [List.cons_append, lookupAttr, if_pos hn]
        simpa [hn] using h
      · simp only [List.cons_append, lookupAttr, if_neg hn]
        exact ih (by simpa [hn] using h)

lemma lookupAttr_map_desc (f : Descriptor → Descriptor)
    (l : List (String × Descriptor)) (n : String) :
    lookupAttr (l.map (fun p => (p.1, f p.2))) n = (lookupAttr l n).map f := by
  induction l with
  | nil => simp [lookupAttr]
  | cons p rest ih =>
      obtain ⟨n0, d0⟩ := p
      by_cases hn : n0 = n
      · simp [lookupAttr, hn]
      · simp [lookupAttr, hn, ih]

lemma ownLookup_set_self (h : Heap) (i : Nat) (R' : ObjectRecord)
    (hlt : i < h.length) (n : String) :
    ownLookup (List.set h i R') i n = lookupAttr R'.attrs n := by
  simp [ownLookup, List.getElem?_set_self hlt]

/-! ### Postconditions of `define`, `copyOwn` and `findOwner` -/

/-- A successful `define` installs exactly the given descriptor under the
given name on the target record and changes nothing else. -/
lemma define_ok_spec {h h' : Heap} {i : Nat} {name : String} {d : Descriptor}
    (hok : define h i name d = .ok h') :
    ownLookup h' i name = some d ∧
    (∀ n, n ≠ name → ownLookup h' i n = ownLookup h i n) ∧
    (∀ j, j ≠ i → h'[j]? = h[j]?) := by
  unfold define at hok
  split at hok
  next hh => exact Except.noConfusion hok
  next R hh =>
    have hlt : i < h.length := (List.getElem?_eq_some_iff.mp hh).1
    split at hok
    next old hl =>
        have hres : h' = List.set h i { R with attrs := setAttr R.attrs name d } := by
          split at hok
          · exact (Except.ok.inj hok).symm
          · split at hok
            · exact (Except.ok.inj hok).symm
            · split at hok
              · exact (Except.ok.inj hok).symm
              · exact Except.noConfusion hok
        subst hres
        refine ⟨?_, ?_, ?_⟩
        · rw [ownLookup_set_self h i _ hlt]
          exact lookupAttr_setAttr_self _ _ _
        · intro n hn
          rw [ownLookup_set_self h i _ hlt]
          simp only [ownLookup, hh]
          exact lookupAttr_setAttr_ne _ _ _ _ hn
        · intro j hj
          exact List.getElem?_set_ne (Ne.symm hj)
    next hl =>
        have hres : h' = List.set h i { R with attrs := R.attrs ++ [(name, d)] } := by
          split at hok
          · exact (Except.ok.inj hok).symm
          · exact Except.noConfusion hok
        subst hres
        refine ⟨?_, ?_, ?_⟩
        · rw [ownLookup_set_self h i _ hlt]
          rw [lookupAttr_append_of_none _ hl]
          simp [lookupAttr]
        · intro n hn
          rw [ownLookup_set_self h i _ hlt]
          simp only [ownLookup, hh]
          cases hx : lookupAttr R.attrs n with
          | some d2 => exact lookupAttr_append_of_some _ hx
          | none =>
              rw [lookupAttr_append_of_none _ hx]
              simp [lookupAttr, Ne.symm hn]
        · intro j hj
          exact List.getElem?_set_ne (Ne.symm hj)

/-- A successful per-name copy changes at most the receiver's entry for
that name, and faithfully transfers the supplier's current descriptor. -/
lemma copyOwn_ok_spec {h h1 : Heap} {recv supp : Nat} {k : String}
    (hok : copyOwn h recv supp k = .ok h1) :
    (∀ j, j ≠ recv → h1[j]? = h[j]?) ∧
    (∀ n, n ≠ k → ownLookup h1 recv n = ownLookup h recv n) ∧
    (∀ d, ownLookup h supp k = some d → ownLookup h1 recv k = some d) := by
  unfold copyOwn at hok
  split at hok
  next hh =>
      have : h1 = h := (Except.ok.inj hok).symm
      subst this
      exact ⟨fun _ _ => rfl, fun _ _ => rfl, fun d hd => by
        simp [ownLookup, hh] at hd⟩
  next S hh =>
      split at hok
      next hl =>
          have : h1 = h := (Except.ok.inj hok).symm
          subst this
          exact ⟨fun _ _ => rfl, fun _ _ => rfl, fun d hd => by
            simp [ownLookup, hh, hl] at hd⟩
      next d0 hl =>
          obtain ⟨hmain, hother, hframe⟩ := define_ok_spec hok
          refine ⟨hframe, hother, ?_⟩
          intro d hd
          simp only [ownLookup, hh, hl] at hd
          rw [← hd]
          exact hmain

/-- If the bounded search succeeds at a record other than the start, the
start record exists and does not own the name. -/
lemma findOwner_ok_ne_self {h : Heap} {fuel r dIdx : Nat} {name : String}
    (hfo : findOwner h fuel r name = .ok (some dIdx)) (hne : dIdx ≠ r) :
    ∃ R, h[r]? = some R ∧ lookupAttr R.attrs name = none := by
  cases fuel with
  | zero => simp [findOwner] at hfo
  | succ m =>
      cases hh : h[r]? with
      | none => simp [findOwner, hh] at hfo
      | some R =>
          refine ⟨R, rfl, ?_⟩
          cases hl : lookupAttr R.attrs name with
          | none => rfl
          | some d =>
              simp [findOwner, hh, hl] at hfo
              exact absurd hfo.symm hne

/-- If the bounded search succeeds at all, the start record exists. -/
lemma findOwner_ok_some_start {h : Heap} {fuel r dIdx : Nat} {name : String}
    (hfo : findOwner h fuel r name = .ok (some dIdx)) :
    ∃ R, h[r]? = some R := by
  cases fuel with
  | zero => simp [findOwner] at hfo
  | succ m =>
      cases hh : h[r]? with
      | none => simp [findOwner, hh] at hfo
      | some R => exact ⟨R, rfl⟩

/-- A successful shadowing write leaves the name as an own attribute of
the receiver. -/
lemma shadowWrite_ok_hasOwn {h h' : Heap} {r : Nat} {name : String} {v : Value}
    (hok : shadowWrite h r name v = .ok h') : hasOwn h' r name = true := by
  unfold shadowWrite at hok
  split at hok
  next => exact Except.noConfusion hok
  next R hh =>
    have hlt : r < h.length := (List.getElem?_eq_some_iff.mp hh).1
    split at hok
    next val w e c hl =>
        split at hok
        · have hres := (Except.ok.inj hok).symm
          subst hres
          simp [hasOwn, List.getElem?_set_self hlt, lookupAttr_setAttr_self]
        · exact Except.noConfusion hok
    next g s e c hl => exact Except.noConfusion hok
    next hl =>
        split at hok
        · have hres := (Except.ok.inj hok).symm
          subst hres
          simp [hasOwn, List.getElem?_set_self hlt,
            lookupAttr_append_of_none _ hl, lookupAttr]
        · exact Except.noConfusion hok

/-- Membership in the enumerable keys of an attribute list, from a lookup. -/
lemma mem_filterKeys_of_lookup :
    ∀ (l : List (String × Descriptor)) (name : String) (d : Descriptor),
      lookupAttr l name = some d → d.enumerableB = true →
      name ∈ (l.filter (fun p => p.2.enumerableB)).map Prod.fst := by
  intro l
  induction l with
  | nil => intro name d hl _; simp [lookupAttr] at hl
  | cons p rest ih =>
      intro name d hl he
      obtain ⟨n0, d0⟩ := p
      simp only [lookupAttr] at hl
      by_cases hn : n0 = name
      · subst hn
        rw [if_pos rfl, Option.some.injEq] at hl
        subst hl
        simp [List.filter_cons, he]
      · rw [if_neg hn] at hl
        have hmem := ih name d hl he
        simp only [List.filter_cons]
        split
        · exact List.mem_cons_of_mem _ hmem
        · exact hmem

/-- Membership in the enumerable own-keys sequence, from a lookup. -/
lemma mem_ownKeys_of_lookup (S : ObjectRecord) (name : String) (d : Descriptor)
    (hl : lookupAttr S.attrs name = some d) (he : d.enumerableB = true) :
    name ∈ ownKeys S true := by
  simp only [ownKeys, if_pos rfl]
  exact mem_filterKeys_of_lookup S.attrs name d hl he

/-- The enumerable own-keys sequence has no duplicates when the record's
attribute list has none. -/
lemma nodup_ownKeys (S : ObjectRecord) (hnd : (S.attrs.map Prod.fst).Nodup) :
    (ownKeys S true).Nodup := by
  simp only [ownKeys, if_pos rfl]
  exact hnd.sublist ((List.filter_sublist _).map Prod.fst)

/-- Invariant of the source `mixin` loop: a successful fold over a
duplicate-free key list copies each listed supplier descriptor onto the
receiver and changes nothing else. -/
lemma foldCopy_spec {recv supp : Nat} {S : ObjectRecord} (hne : recv ≠ supp) :
    ∀ (ks : List String) (hh h' : Heap),
      hh[supp]? = some S →
      ks.foldlM (fun x name => copyOwn x recv supp name) hh = .ok h' →
      ks.Nodup →
      (∀ j, j ≠ recv → h'[j]? = hh[j]?) ∧
      (∀ n, n ∉ ks → ownLookup h' recv n = ownLookup hh recv n) ∧
      (∀ n ∈ ks, ∀ d, lookupAttr S.attrs n = some d → ownLookup h' recv n = some d) := by
  intro ks
  induction ks with
  | nil =>
      intro hh h' _ hfold _
      simp only [List.foldlM_nil] at hfold
      have : h' = hh := (Except.ok.inj hfold).symm
      subst this
      exact ⟨fun _ _ => rfl, fun _ _ => rfl, fun n hn => absurd hn (List.not_mem_nil n)⟩
  | cons k rest ih =>
      intro hh h' hS hfold hnd
      rw [List.foldlM_cons] at hfold
      cases hcopy : copyOwn hh recv supp k with
      | error e => rw [hcopy] at hfold; exact Except.noConfusion hfold
      | ok h1 =>
          rw [hcopy] at hfold
          obtain ⟨cframe, cother, cmain⟩ := copyOwn_ok_spec hcopy
          have hS1 : h1[supp]? = some S := by
            rw [cframe supp (Ne.symm hne)]; exact hS
          obtain ⟨iframe, iother, imain⟩ := ih h1 h' hS1 hfold hnd.of_cons
          refine ⟨?_, ?_, ?_⟩
          · intro j hj; rw [iframe j hj, cframe j hj]
          · intro n hn
            have hn1 : n ≠ k := fun hcontra => hn (hcontra ▸ List.mem_cons_self k rest)
            have hn2 : n ∉ rest := fun hcontra => hn (List.mem_cons_of_mem _ hcontra)
            rw [iother n hn2, cother n hn1]
          · intro n hnmem d hd
            rcases List.mem_cons.mp hnmem with hkn | hrest
            · subst hkn
              have hknotrest : n ∉ rest := (List.nodup_cons.mp hnd).1
              rw [iother n hknotrest]
              exact cmain d (by simp only [ownLookup, hS]; exact hd)
            · exact imain n hrest d hd

/-! ### Claims -/

/-- C8: sealing the record turns its only descriptor non-configurable;
a `define` with a differing descriptor then fails with
`NotConfigurableError`, while `set` still succeeds (writability is
preserved by seal) and `get` reads back the new value. -/
theorem c8_seal_scenario :
    sealObj hC8 0 =
      [⟨[("count", .stored (.num 0) true true false)], none, .sealedExt⟩] ∧
    define (sealObj hC8 0) 0 "count" (.stored (.num 1) true true true) =
      .error .notConfigurable ∧
    set (sealObj hC8 0) 2 0 "count" (.num 1) =
      .ok [⟨[("count", .stored (.num 1) true true false)], none, .sealedExt⟩] ∧
    get [⟨[("count", .stored (.num 1) true true false)], none, .sealedExt⟩]
      2 0 "count" = .ok (some (.num 1)) :=
  ⟨rfl, rfl, rfl, rfl⟩

/-- C6 counterexample: on a sealed receiver lacking both names, the source
`mixin` aborts at the first failing per-name copy and propagates its
`NotExtensibleError`; it neither continues with the remaining name nor
returns the receiver with an aggregated report. -/
theorem c6_counterexample : mixin hC6 0 1 = .error .notExtensible := rfl

/-- Binding a successful `Except` computation runs the continuation. -/
lemma exceptOkBind {ε α β : Type} (a : α) (f : α → Except ε β) :
    (Except.ok a >>= f) = f a := rfl

/-- Binding a failed `Except` computation propagates the error. -/
lemma exceptErrorBind {ε α β : Type} (e : ε) (f : α → Except ε β) :
    ((Except.error e : Except ε α) >>= f) = .error e := rfl

/-- C6 (amended): `mixin` has the same fail-fast semantics as `define` —
whenever the copy of any enumerable supplier key fails, after arbitrarily
many earlier keys were copied successfully, the whole `mixin` aborts with
that error: the remaining keys are not copied and no aggregation
occurs. -/
theorem c6_mixin_fail_fast (h hh : Heap) (recv supp : Nat) (S : ObjectRecord)
    (pre : List String) (k : String) (rest : List String) (e : EngineError)
    (hS : h[supp]? = some S) (hkeys : ownKeys S true = pre ++ k :: rest)
    (hpre : pre.foldlM (fun x name => copyOwn x recv supp name) h = .ok hh)
    (hfail : copyOwn hh recv supp k = .error e) :
    mixin h recv supp = .error e := by
  simp only [mixin, hS, hkeys, List.foldlM_append, hpre, exceptOkBind,
    List.foldlM_cons, hfail, exceptErrorBind]

/-- Witness for the amended C6: the failure occurs at the second
enumerable key `b`, after the copy of `a` onto the sealed receiver (which
already owns a configurable `a`) succeeded. -/
theorem c6_mixin_fail_fast_witness : mixin hC6b 0 1 = .error .notExtensible :=
  c6_mixin_fail_fast hC6b
    [⟨[("a", .stored (.num 1) true true true)], none, .sealedExt⟩,
     ⟨[("a", .stored (.num 1) true true true),
       ("b", .stored (.num 2) true true true)], none, .extensible⟩]
    0 1
    ⟨[("a", .stored (.num 1) true true true),
      ("b", .stored (.num 2) true true true)], none, .extensible⟩
    ["a"] "b" [] .notExtensible rfl rfl rfl rfl

/-- C10 counterexample: `set` succeeds by invoking the delegate's setter,
yet the receiver acquires no own attribute — successful assignment does
not always promote the name to an own attribute. -/
theorem c10_counterexample :
    set hC10 5 0 "a" (.num 7) = .ok hC10 ∧ hasOwn hC10 0 "a" = false :=
  ⟨rfl, rfl⟩

/-- C10 (amended): a successful `set` that does not resolve to a computed
descriptor (i.e. a shadowing store rather than a setter invocation)
leaves the name as an own attribute of the receiver, even when the name
was previously resolved only through the delegate chain. -/
theorem c10_set_promotes_own (h h' : Heap) (fuel r : Nat) (name : String)
    (v : Value)
    (hnc : ownerComputed h fuel r name = false)
    (hok : set h fuel r name v = .ok h') :
    hasOwn h' r name = true := by
  unfold set at hok
  split at hok
  next e hfo => exact Except.noConfusion hok
  next hfo => exact shadowWrite_ok_hasOwn hok
  next dIdx hfo =>
    split at hok
    next => exact Except.noConfusion hok
    next D hD =>
      split at hok
      next => exact Except.noConfusion hok
      next g s e c hl =>
        exfalso
        unfold ownerComputed at hnc
        rw [hfo] at hnc
        simp [hD, hl] at hnc
      next val w e c hl =>
        split at hok
        · exact shadowWrite_ok_hasOwn hok
        · exact Except.noConfusion hok

/-- Witness for the amended C10: the shadowing store promotes `a` to an
own attribute of the receiver. -/
theorem c10_set_promotes_own_witness : hasOwn hC10wAfter 0 "a" = true :=
  c10_set_promotes_own hC10w hC10wAfter 5 0 "a" (.num 2) rfl rfl

/-- C1: shadowing on assignment — when the receiver lacks `name` and its
delegate owns it as a writable stored attribute, `set` creates the
attribute directly on the receiver; afterwards the receiver reads the
new value, the delegate still reads its old value, and no record other
than the receiver was mutated. -/
theorem c1_shadowing_assignment (h : Heap) (r d n : Nat) (R D : ObjectRecord)
    (name : String) (v oldv : Value) (e' c' : Bool)
    (hR : h[r]? = some R) (hdel : R.delegate = some d) (hD : h[d]? = some D)
    (hDown : lookupAttr D.attrs name = some (.stored oldv true e' c'))
    (hRn : lookupAttr R.attrs name = none)
    (hrd : r ≠ d) (hext : R.ext = .extensible) :
    set h (n + 2) r name v =
      .ok (List.set h r
        { R with attrs := R.attrs ++ [(name, .stored v false false false)] }) ∧
    get (List.set h r
        { R with attrs := R.attrs ++ [(name, .stored v false false false)] })
      (n + 2) r name = .ok (some v) ∧
    get (List.set h r
        { R with attrs := R.attrs ++ [(name, .stored v false false false)] })
      (n + 2) d name = .ok (some oldv) ∧
    (∀ j, j ≠ r →
      (List.set h r
        { R with attrs := R.attrs ++ [(name, .stored v false false false)] })[j]? =
        h[j]?) := by
  have hlt : r < h.length := (List.getElem?_eq_some_iff.mp hR).1
  have hfo : findOwner h (n + 2) r name = .ok (some d) := by
    simp [findOwner, hR, hRn, hdel, hD, hDown]
  have hR' : (List.set h r
      { R with attrs := R.attrs ++ [(name, .stored v false false false)] })[r]? =
      some { R with attrs := R.attrs ++ [(name, .stored v false false false)] } :=
    List.getElem?_set_self hlt
  have hD' : (List.set h r
      { R with attrs := R.attrs ++ [(name, .stored v false false false)] })[d]? =
      some D := by
    rw [List.getElem?_set_ne hrd]; exact hD
  have hl' : lookupAttr (R.attrs ++ [(name, .stored v false false false)]) name =
      some (.stored v false false false) := by
    rw [lookupAttr_append_of_none _ hRn]; simp [lookupAttr]
  refine ⟨?_, ?_, ?_, ?_⟩
  · simp only [set, hfo, hD, hDown]
    simp [shadowWrite, hR, hRn, hext]
  · have hfo' : findOwner (List.set h r
        { R with attrs := R.attrs ++ [(name, .stored v false false false)] })
        (n + 2) r name = .ok (some r) := by
      simp [findOwner, hR', hl']
    simp [get, hfo', hR', hl']
  · have hfo' : findOwner (List.set h r
        { R with attrs := R.attrs ++ [(name, .stored v false false false)] })
        (n + 2) d name = .ok (some d) := by
      simp [findOwner, hD', hDown]
    simp [get, hfo', hD', hDown]
  · intro j hj
    exact List.getElem?_set_ne (Ne.symm hj)

/-- Witness for C1 at the concrete two-record heap. -/
theorem c1_shadowing_assignment_witness :
    set hC1 5 0 "a" (.num 2) =
      .ok [⟨[("a", .stored (.num 2) false false false)], some 1, .extensible⟩,
           ⟨[("a", .stored (.num 1) true true true)], none, .extensible⟩] ∧
    get [⟨[("a", .stored (.num 2) false false false)], some 1, .extensible⟩,
         ⟨[("a", .stored (.num 1) true true true)], none, .extensible⟩]
      5 0 "a" = .ok (some (.num 2)) ∧
    get [⟨[("a", .stored (.num 2) false false false)], some 1, .extensible⟩,
         ⟨[("a", .stored (.num 1) true true true)], none, .extensible⟩]
      5 1 "a" = .ok (some (.num 1)) := by
  obtain ⟨h1, h2, h3, _⟩ :=
    c1_shadowing_assignment hC1 0 1 3
      ⟨[], some 1, .extensible⟩
      ⟨[("a", .stored (.num 1) true true true)], none, .extensible⟩
      "a" (.num 2) (.num 1) true true rfl rfl rfl rfl rfl (by decide) rfl
  exact ⟨h1, h2, h3⟩

/-- C2: once `configurable = false`, any `define` with a descriptor that
differs in a way other than the one-way `writable : true → false`
narrowing fails with `NotConfigurableError`, the narrowing itself is
accepted, and `remove` always fails with `NotConfigurableError`. -/
theorem c2_nonconfigurable_immutable (h : Heap) (i : Nat) (R : ObjectRecord)
    (name : String) (old dnew : Descriptor)
    (hR : h[i]? = some R) (hl : lookupAttr R.attrs name = some old)
    (hc : old.configurableB = false) :
    (dnew ≠ old → writableTightening old dnew = false →
      define h i name dnew = .error .notConfigurable) ∧
    (writableTightening old dnew = true → ∃ h', define h i name dnew = .ok h') ∧
    remove h i name = .error .notConfigurable := by
  refine ⟨?_, ?_, ?_⟩
  · intro hne htight
    simp [define, hR, hl, hc, hne, htight]
  · intro htight
    refine ⟨List.set h i { R with attrs := setAttr R.attrs name dnew }, ?_⟩
    by_cases hne : dnew = old
    · simp [define, hR, hl, hc, hne]
    · simp [define, hR, hl, hc, hne, htight]
  · simp [remove, hR, hl, hc]

/-- Witness for C2: redefining `x` with a different value fails, the
`writable : true → false` narrowing is accepted, and `remove` fails. -/
theorem c2_nonconfigurable_immutable_witness :
    define hC2 0 "x" (.stored (.num 4) true true false) =
      .error .notConfigurable ∧
    (∃ h', define hC2 0 "x" (.stored (.num 3) false true false) = .ok h') ∧
    remove hC2 0 "x" = .error .notConfigurable := by
  refine ⟨?_, ?_, ?_⟩
  · exact (c2_nonconfigurable_immutable hC2 0
      ⟨[("x", .stored (.num 3) true true false)], none, .extensible⟩ "x"
      (.stored (.num 3) true true false) (.stored (.num 4) true true false)
      rfl rfl rfl).1 (by decide) rfl
  · exact (c2_nonconfigurable_immutable hC2 0
      ⟨[("x", .stored (.num 3) true true false)], none, .extensible⟩ "x"
      (.stored (.num 3) true true false) (.stored (.num 3) false true false)
      rfl rfl rfl).2.1 rfl
  · exact (c2_nonconfigurable_immutable hC2 0
      ⟨[("x", .stored (.num 3) true true false)], none, .extensible⟩ "x"
      (.stored (.num 3) true true false) (.stored (.num 3) false true false)
      rfl rfl rfl).2.2

/-- C7: on a cyclic delegation chain (`A.delegate = B`, `B.delegate = A`)
where neither record owns the name, `get` terminates for every traversal
bound and fails with `CyclicDelegationError`. -/
theorem c7_cycle_safety (h : Heap) (a b : Nat) (A B : ObjectRecord)
    (name : String) (fuel : Nat)
    (hA : h[a]? = some A) (hAd : A.delegate = some b)
    (hB : h[b]? = some B) (hBd : B.delegate = some a)
    (hAn : lookupAttr A.attrs name = none)
    (hBn : lookupAttr B.attrs name = none) :
    get h fuel a name = .error .cyclicDelegation := by
  have hcyc : ∀ m, findOwner h m a name = .error .cyclicDelegation ∧
      findOwner h m b name = .error .cyclicDelegation := by
    intro m
    induction m with
    | zero => exact ⟨rfl, rfl⟩
    | succ k ih =>
        constructor
        · simp [findOwner, hA, hAn, hAd, ih.2]
        · simp [findOwner, hB, hBn, hBd, ih.1]
  simp [get, (hcyc fuel).1]

/-- Witness for C7 at the concrete cyclic heap with bound 10. -/
theorem c7_cycle_safety_witness :
    get hC7 10 0 "x" = .error .cyclicDelegation :=
  c7_cycle_safety hC7 0 1 ⟨[], some 1, .extensible⟩ ⟨[], some 0, .extensible⟩
    "x" 10 rfl rfl rfl rfl rfl rfl

/-- The extensibility state after freezing a record. -/
lemma freezeRec_ext (R : ObjectRecord) : (freezeRec R).ext = .frozen := rfl

/-- C4: `seal` and `freeze` touch only the targeted record's arena entry;
and for a locked receiver whose delegate is still extensible, a `define`
of a new attribute on the delegate succeeds and changes what `get`
resolves on the receiver. -/
theorem c4_lock_locality (h : Heap) (r d j n : Nat) (R D : ObjectRecord)
    (name : String) (v : Value) (w e c : Bool)
    (hj : j ≠ r)
    (hR : h[r]? = some R) (_hlock : R.ext ≠ .extensible)
    (hdel : R.delegate = some d) (hD : h[d]? = some D)
    (hDext : D.ext = .extensible) (hrd : r ≠ d)
    (hRn : lookupAttr R.attrs name = none)
    (hDn : lookupAttr D.attrs name = none)
    (hDdel : D.delegate = none) :
    (sealObj h r)[j]? = h[j]? ∧
    (freeze h r)[j]? = h[j]? ∧
    get h (n + 2) r name = .ok none ∧
    define h d name (.stored v w e c) =
      .ok (List.set h d { D with attrs := D.attrs ++ [(name, .stored v w e c)] }) ∧
    get (List.set h d { D with attrs := D.attrs ++ [(name, .stored v w e c)] })
      (n + 2) r name = .ok (some v) := by
  have hltd : d < h.length := (List.getElem?_eq_some_iff.mp hD).1
  have hR' : (List.set h d { D with attrs := D.attrs ++ [(name, .stored v w e c)] })[r]? =
      some R := by rw [List.getElem?_set_ne (Ne.symm hrd)]; exact hR
  have hD' : (List.set h d { D with attrs := D.attrs ++ [(name, .stored v w e c)] })[d]? =
      some { D with attrs := D.attrs ++ [(name, .stored v w e c)] } :=
    List.getElem?_set_self hltd
  have hl' : lookupAttr (D.attrs ++ [(name, .stored v w e c)]) name =
      some (.stored v w e c) := by
    rw [lookupAttr_append_of_none _ hDn]; simp [lookupAttr]
  refine ⟨?_, ?_, ?_, ?_, ?_⟩
  · simp [sealObj, hR, List.getElem?_set_ne (Ne.symm hj)]
  · simp [freeze, hR, List.getElem?_set_ne (Ne.symm hj)]
  · have hfo : findOwner h (n + 2) r name = .ok none := by
      simp [findOwner, hR, hRn, hdel, hD, hDn, hDdel]
    simp [get, hfo]
  · simp [define, hD, hDn, hDext]
  · have hfo' : findOwner (List.set h d
        { D with attrs := D.attrs ++ [(name, .stored v w e c)] })
        (n + 2) r name = .ok (some d) := by
      simp [findOwner, hR', hRn, hdel, hD', hl']
    simp [get, hfo', hD', hl']

/-- Witness for C4 at the concrete sealed-receiver heap. -/
theorem c4_lock_locality_witness :
    (sealObj hC4 0)[1]? = hC4[1]? ∧
    (freeze hC4 0)[1]? = hC4[1]? ∧
    get hC4 2 0 "m" = .ok none ∧
    define hC4 1 "m" (.stored (.num 7) true true true) =
      .ok (List.set hC4 1
        ⟨[("m", .stored (.num 7) true true true)], none, .extensible⟩) ∧
    get (List.set hC4 1
        ⟨[("m", .stored (.num 7) true true true)], none, .extensible⟩)
      2 0 "m" = .ok (some (.num 7)) :=
  c4_lock_locality hC4 0 1 1 0 ⟨[], some 1, .sealedExt⟩ ⟨[], none, .extensible⟩
    "m" (.num 7) true true true (by decide) rfl (by decide) rfl rfl rfl
    (by decide) rfl rfl rfl

/-- C3: once a record is frozen, a `set` that resolves to a stored
attribute always fails and so never changes any `get` result, while
computed attributes stay fully live — `get` still runs the getter with
the receiver as host, and `set` still invokes a defined setter. -/
theorem c3_freeze_asymmetry (h0 : Heap) (r fuel dIdx : Nat)
    (R0 D : ObjectRecord) (name : String) (v : Value)
    (hR0 : h0[r]? = some R0)
    (hfo : findOwner (freeze h0 r) fuel r name = .ok (some dIdx))
    (hD : (freeze h0 r)[dIdx]? = some D) :
    (∀ val w e c, lookupAttr D.attrs name = some (.stored val w e c) →
      applySet (freeze h0 r) fuel r name v = freeze h0 r ∧
      get (applySet (freeze h0 r) fuel r name v) fuel r name =
        get (freeze h0 r) fuel r name) ∧
    (∀ g s e c, lookupAttr D.attrs name = some (.computed (some g) s e c) →
      get (freeze h0 r) fuel r name =
        .ok (some (runGetter (freeze h0 r) fuel r g))) ∧
    (∀ g sc e c, lookupAttr D.attrs name = some (.computed g (some sc) e c) →
      set (freeze h0 r) fuel r name v = .ok (runSetter (freeze h0 r) r v sc)) := by
  have hlt : r < h0.length := (List.getElem?_eq_some_iff.mp hR0).1
  have hfr : (freeze h0 r)[r]? = some (freezeRec R0) := by
    simp [freeze, hR0, List.getElem?_set_self hlt]
  have hfrW : ∀ nm val w e c,
      lookupAttr (freezeRec R0).attrs nm = some (.stored val w e c) → w = false := by
    intro nm val w e c hlk
    have hmap : lookupAttr (freezeRec R0).attrs nm =
        (lookupAttr R0.attrs nm).map freezeDesc := by
      simp only [freezeRec]
      exact lookupAttr_map_desc freezeDesc R0.attrs nm
    rw [hmap] at hlk
    cases hx : lookupAttr R0.attrs nm with
    | none => rw [hx] at hlk; exact Option.noConfusion hlk
    | some d0 =>
        rw [hx] at hlk
        cases d0 with
        | stored v' w' e'' c'' =>
            simp only [Option.map_some', freezeDesc, Option.some.injEq,
              Descriptor.stored.injEq] at hlk
            exact hlk.2.1.symm
        | computed g s e'' c'' =>
            simp [freezeDesc] at hlk
  refine ⟨?_, ?_, ?_⟩
  · intro val w e c hlk
    have hset : ∃ err, set (freeze h0 r) fuel r name v = .error err := by
      by_cases hdr : dIdx = r
      · subst hdr
        have hDE : D = freezeRec R0 := by
          rw [hfr] at hD; exact (Option.some.inj hD).symm
        subst hDE
        have hw : w = false := hfrW name val w e c hlk
        subst hw
        exact ⟨.notWritable, by simp [set, hfo, hD, hlk]⟩
      · obtain ⟨Rr, hRr, hRrn⟩ := findOwner_ok_ne_self hfo hdr
        have hRrE : Rr = freezeRec R0 := by
          rw [hfr] at hRr; exact (Option.some.inj hRr).symm
        subst hRrE
        cases w with
        | false => exact ⟨.notWritable, by simp [set, hfo, hD, hlk]⟩
        | true =>
            refine ⟨.notExtensible, ?_⟩
            have hsw : shadowWrite (freeze h0 r) r name v = .error .notExtensible := by
              simp [shadowWrite, hfr, hRrn, freezeRec_ext]
            simp [set, hfo, hD, hlk, hsw]
    obtain ⟨err, herr⟩ := hset
    have happ : applySet (freeze h0 r) fuel r name v = freeze h0 r := by
      simp [applySet, herr]
    exact ⟨happ, by rw [happ]⟩
  · intro g s e c hlk
    simp [get, hfo, hD, hlk]
  · intro g sc e c hlk
    simp [set, hfo, hD, hlk]

/-- Witness for C3 at the frozen concrete heap: the stored write is
dropped, the getter and setter both stay invokable. -/
theorem c3_freeze_asymmetry_witness :
    applySet (freeze hC3 0) 5 0 "x" (.num 9) = freeze hC3 0 ∧
    get (freeze hC3 0) 5 0 "g" =
      .ok (some (runGetter (freeze hC3 0) 5 0 (.readField "x"))) ∧
    set (freeze hC3 0) 5 0 "g" (.num 9) =
      .ok (runSetter (freeze hC3 0) 0 (.num 9) (.writeField "x")) := by
  refine ⟨?_, ?_, ?_⟩
  · exact ((c3_freeze_asymmetry hC3 0 5 0
      ⟨[("x", .stored (.num 5) true true true),
        ("g", .computed (some (.readField "x")) (some (.writeField "x")) true true)],
        none, .extensible⟩
      ⟨[("x", .stored (.num 5) false true false),
        ("g", .computed (some (.readField "x")) (some (.writeField "x")) true false)],
        none, .frozen⟩
      "x" (.num 9) rfl rfl rfl).1 (.num 5) false true false rfl).1
  · exact (c3_freeze_asymmetry hC3 0 5 0
      ⟨[("x", .stored (.num 5) true true true),
        ("g", .computed (some (.readField "x")) (some (.writeField "x")) true true)],
        none, .extensible⟩
      ⟨[("x", .stored (.num 5) false true false),
        ("g", .computed (some (.readField "x")) (some (.writeField "x")) true false)],
        none, .frozen⟩
      "g" (.num 9) rfl rfl rfl).2.1 (.readField "x") (some (.writeField "x"))
      true false rfl
  · exact (c3_freeze_asymmetry hC3 0 5 0
      ⟨[("x", .stored (.num 5) true true true),
        ("g", .computed (some (.readField "x")) (some (.writeField "x")) true true)],
        none, .extensible⟩
      ⟨[("x", .stored (.num 5) false true false),
        ("g", .computed (some (.readField "x")) (some (.writeField "x")) true false)],
        none, .frozen⟩
      "g" (.num 9) rfl rfl rfl).2.2 (some (.readField "x")) (.writeField "x")
      true false rfl

/-- C5: a successful `mixin` copies, for every enumerable own attribute of
the supplier, the entire descriptor (stored stays stored, computed stays
computed) onto the receiver; a copied getter invoked through the receiver
runs with the receiver — not the supplier — bound as host context. -/
theorem c5_mixin_preserves (h h' : Heap) (recv supp m : Nat)
    (S : ObjectRecord)
    (hne : recv ≠ supp) (hS : h[supp]? = some S)
    (hnd : (S.attrs.map Prod.fst).Nodup)
    (hok : mixin h recv supp = .ok h') :
    (∀ name d, lookupAttr S.attrs name = some d → d.enumerableB = true →
      ownLookup h' recv name = some d) ∧
    (∀ name g s e c,
      lookupAttr S.attrs name = some (.computed (some g) s e c) → e = true →
      get h' (m + 1) recv name = .ok (some (runGetter h' (m + 1) recv g))) := by
  simp only [mixin, hS] at hok
  obtain ⟨_, _, hmain⟩ :=
    foldCopy_spec hne (ownKeys S true) h h' hS hok (nodup_ownKeys S hnd)
  have hcopy : ∀ name d, lookupAttr S.attrs name = some d →
      d.enumerableB = true → ownLookup h' recv name = some d := by
    intro name d hl he
    exact hmain name (mem_ownKeys_of_lookup S name d hl he) d hl
  refine ⟨hcopy, ?_⟩
  intro name g s e c hl he
  have h1 : ownLookup h' recv name = some (.computed (some g) s e c) :=
    hcopy name _ hl (by simp [Descriptor.enumerableB, he])
  cases hrec : h'[recv]? with
  | none => simp [ownLookup, hrec] at h1
  | some Rr =>
      have hlk : lookupAttr Rr.attrs name = some (.computed (some g) s e c) := by
        simpa [ownLookup, hrec] using h1
      have hfo : findOwner h' (m + 1) recv name = .ok (some recv) := by
        simp [findOwner, hrec, hlk]
      simp [get, hfo, hrec, hlk]

/-- Witness for C5 at the concrete pet/elephant-style heap: the computed
`color` descriptor is copied whole, and its getter then reads the
receiver's own `_color`. -/
theorem c5_mixin_preserves_witness :
    ownLookup
      [⟨[("_color", .stored (.str "pink") true false true),
         ("color", .computed (some (.readField "_color")) (some .noop) true true),
         ("weight", .stored (.str "heavy") true true true)], none, .extensible⟩,
       ⟨[("color", .computed (some (.readField "_color")) (some .noop) true true),
         ("weight", .stored (.str "heavy") true true true)], none, .extensible⟩]
      0 "color" =
      some (.computed (some (.readField "_color")) (some .noop) true true) ∧
    get [⟨[("_color", .stored (.str "pink") true false true),
         ("color", .computed (some (.readField "_color")) (some .noop) true true),
         ("weight", .stored (.str "heavy") true true true)], none, .extensible⟩,
       ⟨[("color", .computed (some (.readField "_color")) (some .noop) true true),
         ("weight", .stored (.str "heavy") true true true)], none, .extensible⟩]
      5 0 "color" =
      .ok (some (runGetter
        [⟨[("_color", .stored (.str "pink") true false true),
           ("color", .computed (some (.readField "_color")) (some .noop) true true),
           ("weight", .stored (.str "heavy") true true true)], none, .extensible⟩,
         ⟨[("color", .computed (some (.readField "_color")) (some .noop) true true),
           ("weight", .stored (.str "heavy") true true true)], none, .extensible⟩]
        5 0 (.readField "_color"))) := by
  obtain ⟨hcopy, hget⟩ :=
    c5_mixin_preserves hC5
      [⟨[("_color", .stored (.str "pink") true false true),
         ("color", .computed (some (.readField "_color")) (some .noop) true true),
         ("weight", .stored (.str "heavy") true true true)], none, .extensible⟩,
       ⟨[("color", .computed (some (.readField "_color")) (some .noop) true true),
         ("weight", .stored (.str "heavy") true true true)], none, .extensible⟩]
      0 1 4
      ⟨[("color", .computed (some (.readField "_color")) (some .noop) true true),
        ("weight", .stored (.str "heavy") true true true)], none, .extensible⟩
      (by decide) rfl (by decide) rfl
  exact ⟨hcopy "color" _ rfl rfl,
    hget "color" (.readField "_color") (some .noop) true true rfl rfl⟩

/-- C9: calling the guarded constructor's safe entry point with an
ambient context that is not an instance re-routes the call through
`instantiateParent`: a fresh record (at the top of the arena) receives
the attribute writes, and the ambient record is left exactly as it was. -/
theorem c9_instantiation_guard (g : ObjectRecord) (a b : Value) (n : Nat)
    (hg : g.delegate = none) :
    safeInvokeParent [⟨[], none, .extensible⟩, g] (n + 2) 0 1 a b =
      instantiateParent [⟨[], none, .extensible⟩, g] (n + 2) 0 a b ∧
    instantiateParent [⟨[], none, .extensible⟩, g] (n + 2) 0 a b =
      .ok ([⟨[], none, .extensible⟩, g,
        ⟨[("name", .stored a false false false),
          ("child", .stored b false false false)], some 0, .extensible⟩], 2) ∧
    ([⟨[], none, .extensible⟩, g,
      ⟨[("name", .stored a false false false),
        ("child", .stored b false false false)], some 0, .extensible⟩] : Heap)[1]? =
      some g ∧
    get [⟨[], none, .extensible⟩, g,
      ⟨[("name", .stored a false false false),
        ("child", .stored b false false false)], some 0, .extensible⟩]
      (n + 2) 2 "name" = .ok (some a) ∧
    get [⟨[], none, .extensible⟩, g,
      ⟨[("name", .stored a false false false),
        ("child", .stored b false false false)], some 0, .extensible⟩]
      (n + 2) 2 "child" = .ok (some b) := by
  have hnotinst : inChain [⟨[], none, .extensible⟩, g] (n + 2) 1 0 = false := by
    simp [inChain, hg]
  have hbody : parentBody
      [⟨[], none, .extensible⟩, g, ⟨[], some 0, .extensible⟩]
      (n + 2) 2 a b =
      .ok [⟨[], none, .extensible⟩, g,
        ⟨[("name", .stored a false false false),
          ("child", .stored b false false false)], some 0, .extensible⟩] := by
    have hfo1 : findOwner [⟨[], none, .extensible⟩, g, ⟨[], some 0, .extensible⟩]
        (n + 2) 2 "name" = .ok none := by
      simp [findOwner, lookupAttr]
    have hset1 : set [⟨[], none, .extensible⟩, g, ⟨[], some 0, .extensible⟩]
        (n + 2) 2 "name" a =
        .ok [⟨[], none, .extensible⟩, g,
          ⟨[("name", .stored a false false false)], some 0, .extensible⟩] := by
      simp [set, hfo1, shadowWrite, lookupAttr, List.set]
    have hfo2 : findOwner
        [⟨[], none, .extensible⟩, g,
          ⟨[("name", .stored a false false false)], some 0, .extensible⟩]
        (n + 2) 2 "child" = .ok none := by
      simp [findOwner, lookupAttr]
    have hset2 : set
        [⟨[], none, .extensible⟩, g,
          ⟨[("name", .stored a false false false)], some 0, .extensible⟩]
        (n + 2) 2 "child" b =
        .ok [⟨[], none, .extensible⟩, g,
          ⟨[("name", .stored a false false false),
            ("child", .stored b false false false)], some 0, .extensible⟩] := by
      simp [set, hfo2, shadowWrite, lookupAttr, List.set]
    simp [parentBody, hset1, hset2]
  have hinst : instantiateParent [⟨[], none, .extensible⟩, g] (n + 2) 0 a b =
      .ok ([⟨[], none, .extensible⟩, g,
        ⟨[("name", .stored a false false false),
          ("child", .stored b false false false)], some 0, .extensible⟩], 2) := by
    simp [instantiateParent, hbody]
  refine ⟨?_, hinst, rfl, ?_, ?_⟩
  · simp [safeInvokeParent, hnotinst]
  · have hfo : findOwner [⟨[], none, .extensible⟩, g,
        ⟨[("name", .stored a false false false),
          ("child", .stored b false false false)], some 0, .extensible⟩]
        (n + 2) 2 "name" = .ok (some 2) := by
      simp [findOwner, lookupAttr]
    simp [get, hfo, lookupAttr]
  · have hfo : findOwner [⟨[], none, .extensible⟩, g,
        ⟨[("name", .stored a false false false),
          ("child", .stored b false false false)], some 0, .extensible⟩]
        (n + 2) 2 "child" = .ok (some 2) := by
      simp [findOwner, lookupAttr]
    simp [get, hfo, lookupAttr]

/-- Witness for C9: a concrete ambient record with its own attribute
stays untouched while the fresh record receives the writes. -/
theorem c9_instantiation_guard_witness :
    safeInvokeParent
      [⟨[], none, .extensible⟩,
       ⟨[("x", .stored (.num 0) true true true)], none, .extensible⟩]
      2 0 1 (.str "A") (.str "B") =
      instantiateParent
        [⟨[], none, .extensible⟩,
         ⟨[("x", .stored (.num 0) true true true)], none, .extensible⟩]
        2 0 (.str "A") (.str "B") ∧
    instantiateParent
      [⟨[], none, .extensible⟩,
       ⟨[("x", .stored (.num 0) true true true)], none, .extensible⟩]
      2 0 (.str "A") (.str "B") =
      .ok ([⟨[], none, .extensible⟩,
        ⟨[("x", .stored (.num 0) true true true)], none, .extensible⟩,
        ⟨[("name", .stored (.str "A") false false false),
          ("child", .stored (.str "B") false false false)], some 0, .extensible⟩], 2) := by
  obtain ⟨h1, h2, _, _, _⟩ :=
    c9_instantiation_guard
      ⟨[("x", .stored (.num 0) true true true)], none, .extensible⟩
      (.str "A") (.str "B") 0 rfl
  exact ⟨h1, h2⟩

end Obj
